import Mathlib

/-!
Verification of the video-rotoscope effect-processing core.

Shallow embedding of the backend source:
  * `src/processing/pipeline.py`        (ProcessingPipeline)
  * `src/processing/frame_extractor.py` (FrameExtractor)
  * `src/processing/video_assembler.py` (VideoAssembler)
  * `src/effects/scanner_darkly.py`     (classic ScannerDarklyEffect)
  * `src/effects/neural/scanner_darkly.py` (neural ScannerDarklyEffect)
  * `src/effects/processor.py`          (VideoProcessor, main loop)
  * `src/effects/core/effect_core.py`   (EffectRegistry)

External OpenCV / numpy / ffmpeg calls are modelled as opaque deterministic
functions collected in primitive structures; the Python control flow, state
updates and arithmetic are translated directly.
-/

namespace VideoRotoscope

/-! ## Resource estimation (pipeline.py, `process_video`, lines 148-180)

The decision whether to use the disk-spill path is pure arithmetic on the
video metadata; every division in the Python source is by a power of two on
values far below 2^53, so binary floating point evaluates it exactly and the
rational model below is faithful. -/

/-- Video metadata as returned by `FrameExtractor.get_video_info`. -/
structure VideoInfo where
  width : ℕ
  height : ℕ
  totalFrames : ℕ
  fps : ℚ
deriving Repr, DecidableEq

/-- `frame_memory_mb = (width * height * 3) / (1024 * 1024)` (pipeline.py:157). -/
def frameMemoryMB (vi : VideoInfo) : ℚ :=
  ((vi.width : ℚ) * vi.height * 3) / (1024 * 1024)

/-- `processing_memory_gb = frame_memory_mb * batch_size * 2 / 1024` (pipeline.py:160). -/
def processingMemoryGB (vi : VideoInfo) (batchSize : ℕ) : ℚ :=
  frameMemoryMB vi * batchSize * 2 / 1024

/-- `use_disk_frames = processing_memory_gb > max_memory_usage_gb or
    total_frames > 1000` (pipeline.py:165-168). -/
def useDiskFrames (vi : VideoInfo) (batchSize : ℕ) (maxMemoryGB : ℚ) : Bool :=
  decide (processingMemoryGB vi batchSize > maxMemoryGB) ||
  decide (vi.totalFrames > 1000)

/-- The large-video threshold hard-coded in `process_video`. -/
def largeVideoThreshold : ℕ := 1000

end VideoRotoscope

namespace VideoRotoscope

theorem processingMemoryGB_eq (vi : VideoInfo) (b : ℕ) :
    processingMemoryGB vi b = ((vi.width : ℚ) * vi.height * 3 * b * 2) / 2 ^ 30 := by
  unfold processingMemoryGB frameMemoryMB
  ring

theorem useDiskFrames_eq_false_iff (vi : VideoInfo) (b : ℕ) (g : ℚ) :
    useDiskFrames vi b g = false ↔
      ((vi.width : ℚ) * vi.height * 3 * b * 2 ≤ g * 2 ^ 30 ∧
        vi.totalFrames ≤ largeVideoThreshold) := by
  unfold useDiskFrames largeVideoThreshold
  rw [Bool.or_eq_false_iff, decide_eq_false_iff_not, decide_eq_false_iff_not,
    processingMemoryGB_eq, not_lt, not_lt, div_le_iff₀ (by norm_num : (0:ℚ) < 2 ^ 30)]

/-- **C3.** `process_video` selects the memory-resident path exactly when the
estimated batch footprint `width * height * 3 * batch_size * 2` (bytes) is at
most the memory budget (`max_memory_usage_gb * 2^30` bytes) and the total
frame count is at most the large-video threshold (1000); it selects the
disk-spill path when the footprint strictly exceeds the budget or the frame
count strictly exceeds the threshold, so values exactly at either threshold
take the memory path.  The decision `useDiskFrames` is a pure function of the
metadata and configuration (no I/O in the model, matching pipeline.py:153-168
which only does arithmetic between `get_video_info` and the branch). -/
theorem resource_decision_boundary (vi : VideoInfo) (b : ℕ) (g : ℚ) :
    (useDiskFrames vi b g = false ↔
      ((vi.width : ℚ) * vi.height * 3 * b * 2 ≤ g * 2 ^ 30 ∧
        vi.totalFrames ≤ largeVideoThreshold)) ∧
    (useDiskFrames vi b g = true ↔
      (g * 2 ^ 30 < (vi.width : ℚ) * vi.height * 3 * b * 2 ∨
        largeVideoThreshold < vi.totalFrames)) := by
  have h1 := useDiskFrames_eq_false_iff vi b g
  refine ⟨h1, ?_⟩
  have h2 : useDiskFrames vi b g = true ↔ ¬ useDiskFrames vi b g = false := by
    cases useDiskFrames vi b g <;> simp
  rw [h2, h1, not_and_or, not_le, not_le]

/-! ## Frame resizing (frame_extractor.py) and even-dimension padding
(video_assembler.py)

`extract_frames_batch` / `extract_to_disk` / `extract_all_frames` resize with
`new_h, new_w = int(h * self.resize_factor), int(w * self.resize_factor)`
(frame_extractor.py:106, 160, 221); Python `int()` truncates toward zero.
The assembler's ffmpeg command pads with
`pad=width=ceil(iw/2)*2:height=ceil(ih/2)*2` (video_assembler.py:172, 273). -/

/-- Python `int()` applied to a rational: truncation toward zero. -/
def pyInt (q : ℚ) : ℤ := q.num.tdiv q.den

/-- Dimensions of the frames fed to the effect for a `w×h` input at resize
factor `r`: the resize branch runs only when `r != 1.0`
(frame_extractor.py:219-222). -/
def resizeDims (w h : ℕ) (r : ℚ) : ℤ × ℤ :=
  if r ≠ 1 then (pyInt ((w : ℚ) * r), pyInt ((h : ℚ) * r)) else ((w : ℤ), (h : ℤ))

/-- Modelled from the spec's words for comparison (claim C8): output
dimensions `round(W·r) × round(H·r)`. -/
def specRoundDims (w h : ℕ) (r : ℚ) : ℤ × ℤ :=
  (round ((w : ℚ) * r), round ((h : ℚ) * r))

/-- The ffmpeg `pad=width=ceil(iw/2)*2` filter on one dimension. -/
def padEven (d : ℕ) : ℕ := ((d + 1) / 2) * 2

theorem pyInt_eq_floor {q : ℚ} (hq : 0 ≤ q) : pyInt q = ⌊q⌋ := by
  unfold pyInt
  rw [Rat.floor_def]
  exact Int.tdiv_eq_ediv (Rat.num_nonneg.mpr hq) (Int.ofNat_nonneg q.den)

/-- **C8 counterexample.** For a 3×3 input at resize factor 0.9, the code
produces 2×2 frames (truncation), while the claim's `round(W·r)` gives 3×3. -/
theorem resize_claim_counterexample :
    resizeDims 3 3 (9 / 10) = (2, 2) ∧
    specRoundDims 3 3 (9 / 10) = (3, 3) ∧
    resizeDims 3 3 (9 / 10) ≠ specRoundDims 3 3 (9 / 10) := by
  have hmul : (((3 : ℕ) : ℚ)) * (9 / 10) = 27 / 10 := by push_cast; norm_num
  have hfloor : pyInt (((3 : ℕ) : ℚ) * (9 / 10)) = 2 := by
    rw [pyInt_eq_floor (by rw [hmul]; norm_num), hmul, Int.floor_eq_iff]
    norm_num
  have hround : round (((3 : ℕ) : ℚ) * (9 / 10)) = 3 := by
    rw [round_eq, hmul, Int.floor_eq_iff]
    norm_num
  have e1 : resizeDims 3 3 (9 / 10) = (2, 2) := by
    unfold resizeDims
    rw [if_pos (by norm_num), hfloor]
  have e2 : specRoundDims 3 3 (9 / 10) = (3, 3) := by
    unfold specRoundDims
    rw [hround]
  refine ⟨e1, e2, ?_⟩
  rw [e1, e2]
  decide

/-- **C8 (amended).** For every resize factor `r > 0`, the frames fed to the
effect have dimensions `⌊W·r⌋ × ⌊H·r⌋` (Python `int()` truncation, not
rounding), and the encoder pads each output dimension up to the next even
value (`ceil(d/2)*2`): the padded value is even, at least `d`, and at most
`d + 1` (equal to `d` exactly when `d` is even). -/
theorem resize_truncates_and_encoder_pads_even (w h : ℕ) (r : ℚ) (hr : 0 < r) :
    resizeDims w h r = (⌊(w : ℚ) * r⌋, ⌊(h : ℚ) * r⌋) ∧
    ∀ d : ℕ, 2 ∣ padEven d ∧ d ≤ padEven d ∧ padEven d ≤ d + 1 ∧
      (d % 2 = 0 → padEven d = d) := by
  constructor
  · unfold resizeDims
    by_cases h1 : r = 1
    · subst h1
      simp only [ne_eq, not_true_eq_false, if_false, mul_one, Int.floor_natCast]
    · rw [if_pos h1]
      rw [pyInt_eq_floor (by positivity), pyInt_eq_floor (by positivity)]
  · intro d
    unfold padEven
    exact ⟨⟨(d + 1) / 2, by ring⟩, by omega, by omega, by omega⟩

/-- **C8 witness.** Instantiation of the amended theorem at `w=3, h=5,
`r=1/2`. -/
theorem resize_truncates_witness :
    resizeDims 3 5 (1 / 2) = (⌊(3 : ℚ) * (1 / 2)⌋, ⌊(5 : ℚ) * (1 / 2)⌋) ∧
    2 ∣ padEven 3 ∧ 3 ≤ padEven 3 ∧ padEven 3 ≤ 4 ∧ (3 % 2 = 0 → padEven 3 = 3) := by
  have h := resize_truncates_and_encoder_pads_even 3 5 (1 / 2) (by norm_num)
  exact ⟨h.1, h.2 3⟩



/-! ## Effect-type resolution (effects/processor.py, effects/core/effect_core.py)

`process_message` reads `effect_type = body.get('effect_type', 'silent-movie')`
(processor.py:247); `process_video` dispatches Scanner Darkly variants to the
direct class path (processor.py:343) and everything else through
`EffectRegistry.get_effect_command`, which first normalizes the id
(effect_core.py:248-289). -/

/-- `str.strip()`: remove leading and trailing whitespace. -/
def pyStrip (s : List Char) : List Char :=
  ((s.dropWhile Char.isWhitespace).reverse.dropWhile Char.isWhitespace).reverse

/-- `str.lower()`. -/
def pyLower (s : List Char) : List Char := s.map Char.toLower

/-- Python's `needle in hay` substring test. -/
def hasSub (hay needle : List Char) : Bool :=
  match hay with
  | [] => needle.isEmpty
  | _ :: t => needle.isPrefixOf hay || hasSub t needle

/-- The hard-coded fallback effect id (effect_core.py:289, processor.py:247). -/
def silentMovie : List Char := "silent-movie".toList

/-- The substring-to-standard-id mapping of `_normalize_effect_id`
(effect_core.py:261-276), in source (insertion) order. -/
def effectMap : List (List Char × List Char) :=
  [("silent".toList, "silent-movie".toList),
   ("movie".toList, "silent-movie".toList),
   ("silent_movie".toList, "silent-movie".toList),
   ("silentmovie".toList, "silent-movie".toList),
   ("grind".toList, "grindhouse".toList),
   ("house".toList, "grindhouse".toList),
   ("grind_house".toList, "grindhouse".toList),
   ("grindhouse".toList, "grindhouse".toList),
   ("tech".toList, "technicolor".toList),
   ("color".toList, "technicolor".toList),
   ("techni".toList, "technicolor".toList),
   ("technicolor".toList, "technicolor".toList)]

/-- `EffectRegistry._normalize_effect_id` (effect_core.py:248-289): strip and
lowercase, take an exact manifest key match first, then the first matching
substring mapping, else default to `silent-movie`. -/
def normalizeEffectId (manifestKeys : List (List Char)) (effectId : List Char) :
    List Char :=
  let e := pyLower (pyStrip effectId)
  if e ∈ manifestKeys then e
  else
    match effectMap.find? (fun kv => hasSub e kv.1) with
    | some kv => kv.2
    | none => silentMovie

/-- `body.get('effect_type', 'silent-movie')` (processor.py:247). -/
def messageEffectType (et : Option (List Char)) : List Char := et.getD silentMovie

/-- The Scanner Darkly dispatch test of `process_video` (processor.py:343). -/
def isScannerDarkly (et : List Char) : Bool :=
  pyLower et = "scanner-darkly".toList || pyLower et = "scanner_darkly".toList ||
  pyLower et = "scannerdarkly".toList

/-- Where `process_video` routes an effect type: the direct Scanner Darkly
class path, or the registry with the normalized id. -/
inductive EffectRoute where
  | scannerDirect : EffectRoute
  | registry : List Char → EffectRoute
deriving DecidableEq, Repr

/-- `VideoProcessor.process_video` effect dispatch (processor.py:340-361). -/
def effectRoute (manifestKeys : List (List Char)) (et : List Char) : EffectRoute :=
  if isScannerDarkly et then .scannerDirect
  else .registry (normalizeEffectId manifestKeys et)

theorem normalizeEffectId_cases (keys : List (List Char)) (id : List Char) :
    normalizeEffectId keys id ∈ keys ∨
    normalizeEffectId keys id ∈ effectMap.map Prod.snd ∨
    normalizeEffectId keys id = silentMovie := by
  unfold normalizeEffectId
  by_cases h : pyLower (pyStrip id) ∈ keys
  · rw [if_pos h]
    exact Or.inl h
  · rw [if_neg h]
    rcases hf : effectMap.find? (fun kv => hasSub (pyLower (pyStrip id)) kv.1) with _ | kv
    · rw [hf]
      exact Or.inr (Or.inr rfl)
    · rw [hf]
      refine Or.inr (Or.inl ?_)
      exact List.mem_map_of_mem Prod.snd (List.mem_of_find?_eq_some hf)

/-- **C10.** A job message's effect type is never rejected: a missing
`effect_type` defaults to `silent-movie`; every identifier routes either to
the direct Scanner Darkly path or to the registry, where normalization always
yields a manifest key, a mapped standard id, or the `silent-movie` fallback;
and an identifier that is not a manifest key and matches no substring mapping
is normalized to exactly `silent-movie`. -/
theorem effect_type_never_rejected (keys : List (List Char)) (id : List Char)
    (et : Option (List Char)) :
    messageEffectType none = silentMovie ∧
    (effectRoute keys id = .scannerDirect ∨
      ∃ n, effectRoute keys id = .registry n ∧
        (n ∈ keys ∨ n ∈ effectMap.map Prod.snd ∨ n = silentMovie)) ∧
    (pyLower (pyStrip id) ∉ keys →
      (∀ kv ∈ effectMap, hasSub (pyLower (pyStrip id)) kv.1 = false) →
      normalizeEffectId keys id = silentMovie) ∧
    (et = none → messageEffectType et = silentMovie) := by
  refine ⟨rfl, ?_, ?_, fun h => by rw [h]; rfl⟩
  · unfold effectRoute
    by_cases hs : isScannerDarkly id
    · rw [if_pos hs]
      exact Or.inl rfl
    · rw [if_neg hs]
      exact Or.inr ⟨_, rfl, normalizeEffectId_cases keys id⟩
  · intro h1 h2
    unfold normalizeEffectId
    rw [if_neg h1, List.find?_eq_none.mpr fun kv hkv => by simp [h2 kv hkv]]

/-- **C10 witness.** The unrecognized id `"sepia"` against an empty manifest
normalizes to `silent-movie`. -/
theorem effect_type_never_rejected_witness :
    normalizeEffectId [] "sepia".toList = silentMovie := by
  have h := effect_type_never_rejected [] "sepia".toList none
  exact h.2.2.1 (by decide) (by decide)

/-! ## Job consumer (effects/processor.py, `process_message` lines 229-326 and
`main` lines 450-491)

`process_message` runs download → process → upload → delete-source in order;
any exception short-circuits to the `except` clause which returns `False`
(the source object and queue message are then untouched).  The `main` loop
deletes the queue message only when `process_message` returned `True`.  The
model records each externally visible completed operation as an event. -/

inductive JobEv where
  | downloadDone : JobEv
  | processDone : JobEv
  | uploadDone : JobEv
  | sourceDeleted : JobEv
  | messageDeleted : JobEv
deriving DecidableEq, Repr

/-- Success/failure of each external call a job makes, in program order.
`processOk` is the boolean result of `process_video`; the other three model
whether the S3 call raised. -/
structure JobOutcome where
  downloadOk : Bool
  processOk : Bool
  uploadOk : Bool
  deleteSourceOk : Bool
deriving DecidableEq, Repr

/-- Presence of the three required message fields (processor.py:252). -/
structure JobMsg where
  hasBucket : Bool
  hasInputKey : Bool
  hasOutputKey : Bool
deriving DecidableEq, Repr

/-- `VideoProcessor.process_message` (processor.py:229-326): returns the
boolean result and the ordered list of completed external operations.
A failing step raises (or returns `False`), reaching the common failure
return without performing the later steps. -/
def processMessage (m : JobMsg) (o : JobOutcome) : Bool × List JobEv :=
  if ¬ (m.hasBucket && m.hasInputKey && m.hasOutputKey) then (false, [])
  else if ¬ o.downloadOk then (false, [])
  else if ¬ o.processOk then (false, [.downloadDone])
  else if ¬ o.uploadOk then (false, [.downloadDone, .processDone])
  else if ¬ o.deleteSourceOk then (false, [.downloadDone, .processDone, .uploadDone])
  else (true, [.downloadDone, .processDone, .uploadDone, .sourceDeleted])

/-- One iteration of the `main` polling loop for a received message
(processor.py:463-477): the queue message is deleted iff `process_message`
returned `True`. -/
def mainLoopIter (m : JobMsg) (o : JobOutcome) : List JobEv :=
  let r := processMessage m o
  if r.1 then r.2 ++ [.messageDeleted] else r.2

/-- `a` occurs before `b` in `l` (both occur, first index of `a` earlier). -/
def evBefore (a b : JobEv) (l : List JobEv) : Prop :=
  a ∈ l ∧ b ∈ l ∧ l.indexOf a < l.indexOf b

instance (a b : JobEv) (l : List JobEv) : Decidable (evBefore a b l) := by
  unfold evBefore
  infer_instance

/-- **C2.** For every job: the source object is deleted only after the
destination upload has completed (the upload event strictly precedes the
source-deletion event); the queue message is deleted only after the whole job
succeeded (every earlier step completed); and if processing or the upload
fails, neither the source object nor the queue message is deleted. -/
theorem commit_point_ordering (m : JobMsg) (o : JobOutcome) :
    (JobEv.sourceDeleted ∈ mainLoopIter m o →
      evBefore .uploadDone .sourceDeleted (mainLoopIter m o)) ∧
    (JobEv.messageDeleted ∈ mainLoopIter m o →
      (processMessage m o).1 = true ∧
      evBefore .uploadDone .messageDeleted (mainLoopIter m o) ∧
      evBefore .sourceDeleted .messageDeleted (mainLoopIter m o)) ∧
    (o.processOk = false ∨ o.uploadOk = false →
      JobEv.sourceDeleted ∉ mainLoopIter m o ∧
      JobEv.messageDeleted ∉ mainLoopIter m o) := by
  rcases m with ⟨b1, b2, b3⟩
  rcases o with ⟨d, p, u, s⟩
  cases b1 <;> cases b2 <;> cases b3 <;> cases d <;> cases p <;> cases u <;>
    cases s <;> decide

/-- **C2 witness.** A fully successful job: upload precedes source deletion,
which precedes the queue-message deletion. -/
theorem commit_point_ordering_witness :
    evBefore .uploadDone .sourceDeleted
      (mainLoopIter ⟨true, true, true⟩ ⟨true, true, true, true⟩) ∧
    evBefore .sourceDeleted .messageDeleted
      (mainLoopIter ⟨true, true, true⟩ ⟨true, true, true, true⟩) := by
  have h := commit_point_ordering ⟨true, true, true⟩ ⟨true, true, true, true⟩
  exact ⟨h.1 (by decide), (h.2.1 (by decide)).2.2⟩

/-! ## Neural Scanner Darkly effect (effects/neural/scanner_darkly.py)

Frames, edge maps, binary masks and the OpenCV global RNG state are abstract
types; each OpenCV/numpy call is an opaque deterministic primitive.
`cv2.kmeans` is invoked with `cv2.KMEANS_RANDOM_CENTERS` and no fixed seed
(lines 339-346), so it reads and advances the process-global RNG: it is
modelled as a function of its inputs *and* the RNG state.  All control flow,
parameter arithmetic and `prev_edges` / `prev_colors` state updates are
translated directly from the Python. -/

/-- `color_method` dispatch of `_quantize_colors` (lines 313-319): the string
is compared against "kmeans" and "bilateral", anything else posterizes. -/
inductive ColorMethod where
  | kmeans : ColorMethod
  | bilateral : ColorMethod
  | posterize : ColorMethod
deriving DecidableEq, Repr

/-- Constructor parameters of the neural `ScannerDarklyEffect` (lines 33-68),
plus `netOk`: whether `_load_neural_network` returns a model (lines 158-182).
Defaults are the constructor defaults. -/
structure NeuralConfig where
  edgeStrength : ℚ := 9 / 10
  edgeThickness : ℚ := 9 / 5
  numColors : ℕ := 6
  colorMethod : ColorMethod := .kmeans
  smoothing : ℚ := 7 / 10
  saturation : ℚ := 13 / 10
  temporalSmoothing : ℚ := 2 / 5
  preserveBlack : Bool := true
  netOk : Bool := true
deriving DecidableEq, Repr

/-- The cross-frame state `self.prev_edges` / `self.prev_colors`
(lines 74-76), `none` at construction and after `reset()`. -/
structure NeuralState (F E : Type) where
  prevEdges : Option E := none
  prevColors : Option F := none
deriving DecidableEq, Repr

/-- Opaque OpenCV/numpy primitives used by the neural effect.  `netForward`
models the blob preparation plus `net.forward()` and may raise (the `try` in
`_detect_edges`); `kmeansAssign` models `cv2.kmeans(..., KMEANS_RANDOM_CENTERS)`
followed by `centers[labels]`, reading and advancing the global RNG. -/
structure NeuralPrims (F E M R : Type) where
  bilateral5 : F → F
  netForward : F → Except Unit E
  zeros : E
  blendEdges : ℚ → E → E → E
  normalizeMinMax : E → E
  powCurve : ℚ → E → E
  toU8 : E → M
  adaptiveThresh : M → M
  dilate : ℕ → M → M
  gaussBlur3 : M → M
  thin : M → M
  bilateralSmooth : ℚ → F → F
  cvtLab : F → F
  kmeansAssign : F → ℕ → R → F × R
  satAdjustLab : ℚ → F → F
  contrastL : F → F
  cvtBgr : F → F
  addWeighted : ℚ → F → ℚ → F → F
  bilateralStrong : F → F
  hsvAdjust : ℚ → F → F
  cbrtInt : ℕ → ℕ
  posterizeLUT : ℕ → F → F
  posterizeSat : ℚ → F → F
  overlayBlack : F → M → F
  darkenBorder : F → M → F

variable {F E M R : Type}

/-- `_detect_edges` (lines 184-235): denoise, forward pass, temporal blend
with `prev_edges` when present and `temporal_smoothing > 0`, store the
blended (pre-normalization) edges into `prev_edges`, then min-max normalize
and apply the power curve `1 - edge_strength * 0.7`.  On an exception the
`except` returns a zero map and `prev_edges` is left unchanged. -/
def detectEdges (P : NeuralPrims F E M R) (cfg : NeuralConfig)
    (s : NeuralState F E) (frame : F) : E × NeuralState F E :=
  match P.netForward (P.bilateral5 frame) with
  | .error _ => (P.zeros, s)
  | .ok e0 =>
    let e1 :=
      match s.prevEdges with
      | some pe =>
        if 0 < cfg.temporalSmoothing then P.blendEdges cfg.temporalSmoothing e0 pe
        else e0
      | none => e0
    (P.powCurve (1 - cfg.edgeStrength * (7 / 10)) (P.normalizeMinMax e1),
     { s with prevEdges := some e1 })

/-- `max(1, int(self.edge_thickness * 1.8))` (line 273). -/
def kernelFromThickness (t : ℚ) : ℕ := max 1 (pyInt (t * (9 / 5))).toNat

/-- `_enhance_edges` (lines 237-293): scale to 8-bit, adaptive threshold,
dilate + blur when `edge_thickness > 1.0`, thin when `edge_thickness < 1.0`. -/
def enhanceEdges (P : NeuralPrims F E M R) (cfg : NeuralConfig) (e : E) : M :=
  let b0 := P.adaptiveThresh (P.toU8 e)
  let b1 :=
    if 1 < cfg.edgeThickness then
      P.gaussBlur3 (P.dilate (kernelFromThickness cfg.edgeThickness) b0)
    else b0
  if cfg.edgeThickness < 1 then P.thin b1 else b1

/-- `_quantize_kmeans` (lines 325-396): LAB conversion, k-means assignment
(consuming RNG), optional saturation adjustment, lightness contrast boost,
BGR conversion, temporal blend with `prev_colors` when present, and update of
`prev_colors` with the blended result. -/
def quantizeKmeans (P : NeuralPrims F E M R) (cfg : NeuralConfig)
    (s : NeuralState F E) (frame : F) (rng : R) : F × NeuralState F E × R :=
  let kr := P.kmeansAssign (P.cvtLab frame) cfg.numColors rng
  let q1 := if cfg.saturation ≠ 1 then P.satAdjustLab cfg.saturation kr.1 else kr.1
  let q2 := P.cvtBgr (P.contrastL q1)
  let q3 :=
    match s.prevColors with
    | some pc =>
      if 0 < cfg.temporalSmoothing then
        P.addWeighted (1 - cfg.temporalSmoothing) q2 cfg.temporalSmoothing pc
      else q2
    | none => q2
  (q3, { s with prevColors := some q3 }, kr.2)

/-- `_quantize_posterize` (lines 447-497): LUT posterization with
`max(2, int(cbrt(num_colors)))` levels, optional saturation adjustment,
temporal blend, update of `prev_colors`. -/
def quantizePosterize (P : NeuralPrims F E M R) (cfg : NeuralConfig)
    (s : NeuralState F E) (frame : F) : F × NeuralState F E :=
  let lv := max 2 (P.cbrtInt cfg.numColors)
  let r0 := P.posterizeLUT lv frame
  let r1 := if cfg.saturation ≠ 1 then P.posterizeSat cfg.saturation r0 else r0
  let r2 :=
    match s.prevColors with
    | some pc =>
      if 0 < cfg.temporalSmoothing then
        P.addWeighted (1 - cfg.temporalSmoothing) r1 cfg.temporalSmoothing pc
      else r1
    | none => r1
  (r2, { s with prevColors := some r2 })

/-- `_quantize_bilateral` (lines 398-445): `max(1, int(4*smoothing))` rounds
of strong bilateral filtering, HSV saturation/value adjustment, then
`_quantize_posterize` (which itself blends and updates `prev_colors`),
then a second temporal blend and a second `prev_colors` update. -/
def quantizeBilateral (P : NeuralPrims F E M R) (cfg : NeuralConfig)
    (s : NeuralState F E) (frame : F) : F × NeuralState F E :=
  let iters := max 1 (pyInt (4 * cfg.smoothing)).toNat
  let r0 := Nat.iterate P.bilateralStrong iters frame
  let r1 := P.hsvAdjust cfg.saturation r0
  let pr := quantizePosterize P cfg s r1
  let r3 :=
    match pr.2.prevColors with
    | some pc =>
      if 0 < cfg.temporalSmoothing then
        P.addWeighted (1 - cfg.temporalSmoothing) pr.1 cfg.temporalSmoothing pc
      else pr.1
    | none => pr.1
  (r3, { pr.2 with prevColors := some r3 })

/-- `_quantize_colors` (lines 295-323): optional edge-preserving smoothing,
then the method dispatch. -/
def quantizeColors (P : NeuralPrims F E M R) (cfg : NeuralConfig)
    (s : NeuralState F E) (frame : F) (rng : R) : F × NeuralState F E × R :=
  let f1 := if 0 < cfg.smoothing then P.bilateralSmooth cfg.smoothing frame else frame
  match cfg.colorMethod with
  | .kmeans => quantizeKmeans P cfg s f1 rng
  | .bilateral =>
    let r := quantizeBilateral P cfg s f1
    (r.1, r.2, rng)
  | .posterize =>
    let r := quantizePosterize P cfg s f1
    (r.1, r.2, rng)

/-- `_merge_edges_with_colors` (lines 499-535): black edge overlay when
`preserve_black`, then the dilated-border darkening. -/
def mergeEdges (P : NeuralPrims F E M R) (cfg : NeuralConfig) (q : F) (b : M) : F :=
  let r := if cfg.preserveBlack then P.overlayBlack q b else q
  P.darkenBorder r b

/-- One frame of the shared per-frame body used by both `process_frame`
(lines 554-564) and the `process_batch` loop (lines 595-605), with the
network already loaded: detect edges, enhance them, quantize colors, merge. -/
def frameStep (P : NeuralPrims F E M R) (cfg : NeuralConfig)
    (acc : NeuralState F E × R) (frame : F) : (NeuralState F E × R) × F :=
  let de := detectEdges P cfg acc.1 frame
  let ebin := enhanceEdges P cfg de.1
  let qc := quantizeColors P cfg de.2 frame acc.2
  ((qc.2.1, qc.2.2), mergeEdges P cfg qc.1 ebin)

/-- `process_frame` (lines 537-570): if the network fails to load the
original frame is returned and no state is touched; otherwise the shared
per-frame body runs. -/
def processFrameN (P : NeuralPrims F E M R) (cfg : NeuralConfig)
    (s : NeuralState F E) (rng : R) (frame : F) : F × NeuralState F E × R :=
  if cfg.netOk then
    let r := frameStep P cfg (s, rng) frame
    (r.2, r.1.1, r.1.2)
  else (frame, s, rng)

/-- The `for` loop of `process_batch` (lines 591-611): sequential left fold
of the per-frame body, collecting outputs in order. -/
def processFramesN (P : NeuralPrims F E M R) (cfg : NeuralConfig)
    (acc : NeuralState F E × R) : List F → (NeuralState F E × R) × List F
  | [] => (acc, [])
  | f :: fs =>
    let r := frameStep P cfg acc f
    let rest := processFramesN P cfg r.1 fs
    (rest.1, r.2 :: rest.2)

/-- `process_batch` (lines 572-613): load the network once (on failure the
original frames are returned and no state is touched — `return frames`),
then process each frame in order.  There is no state reset: `prev_edges` and
`prev_colors` persist across calls. -/
def processBatchN (P : NeuralPrims F E M R) (cfg : NeuralConfig)
    (s : NeuralState F E) (rng : R) (frames : List F) :
    List F × NeuralState F E × R :=
  if cfg.netOk then
    let r := processFramesN P cfg (s, rng) frames
    (r.2, r.1.1, r.1.2)
  else (frames, s, rng)

/-- Two consecutive jobs over the same video within one worker process: each
job constructs a fresh effect (empty state), but the OpenCV global RNG is
process-wide, so the second run starts from the RNG state the first one left
behind. -/
def runPipelineTwice (P : NeuralPrims F E M R) (cfg : NeuralConfig)
    (frames : List F) (rng0 : R) : List F × List F :=
  let r1 := processBatchN P cfg {} rng0 frames
  let r2 := processBatchN P cfg {} r1.2.2 frames
  (r1.1, r2.1)

/-! ## Classic Scanner Darkly effect (effects/scanner_darkly.py)

State is the sliding window `self.previous_edges` (at most
`max_previous_frames = 5` entries, lines 79-81).  The weighted history
average of `apply_temporal_smoothing` (lines 100-117) is numpy arithmetic on
abstract edge maps and is modelled as one opaque primitive; the history
management (append / pop) and all control flow are translated directly. -/

/-- `self.max_previous_frames = 5` (scanner_darkly.py:81). -/
def maxPreviousFrames : ℕ := 5

/-- Configuration of the classic effect (constructor defaults, lines 38-56),
plus `hedAvailable`: whether both HED model files exist (line 143). -/
structure ClassicConfig where
  edgeStrength : ℚ := 8 / 10
  edgeThreshold : ℚ := 3 / 10
  temporalSmoothing : ℚ := 3 / 10
  hedAvailable : Bool := true
deriving DecidableEq, Repr

/-- Opaque primitives of the classic effect.  `hedForward` is the
`readNetFromCaffe` / blob / `forward` sequence inside the `try` (may raise);
`threshScale` is `(edges > threshold) * edge_strength` (line 166);
`cannyNorm` is the grayscale/Canny/normalize fallback (lines 181-187);
`tempCombine` is the weighted history average (lines 102-117);
`quantizeWith` / `quantizeNoEdges` are `ColorQuantizer.quantize` with and
without an edge map. -/
structure ClassicPrims (F E : Type) where
  hedForward : F → Except Unit E
  threshScale : ℚ → ℚ → E → E
  cannyNorm : F → E
  tempCombine : ℚ → E → List E → E
  quantizeWith : F → E → F
  quantizeNoEdges : F → F

/-- History append of `apply_temporal_smoothing` (lines 95-97 and 120-122):
append the current edges, then `pop(0)` while the window exceeds
`max_previous_frames`. -/
def pushHistory (hist : List E) (e : E) : List E :=
  let h := hist ++ [e]
  if maxPreviousFrames < h.length then h.tail else h

/-- `apply_temporal_smoothing` (lines 83-124): with an empty history or
non-positive smoothing the current edges pass through; otherwise the weighted
history average is taken; in both cases the current edges are appended to the
window. -/
def applyTemporalSmoothing (P : ClassicPrims F E) (cfg : ClassicConfig)
    (hist : List E) (e : E) : E × List E :=
  if hist.length = 0 ∨ cfg.temporalSmoothing ≤ 0 then (e, pushHistory hist e)
  else (P.tempCombine cfg.temporalSmoothing e hist, pushHistory hist e)

/-- `process_frame` (lines 126-201): HED path (threshold + scale, temporal
smoothing, quantization with edges), Canny fallback when the model files are
missing, and the `except` path returning plain quantization with the history
untouched. -/
def processFrameC (P : ClassicPrims F E) (cfg : ClassicConfig)
    (hist : List E) (frame : F) : F × List E :=
  if cfg.hedAvailable then
    match P.hedForward frame with
    | .error _ => (P.quantizeNoEdges frame, hist)
    | .ok e0 =>
      let e1 := P.threshScale cfg.edgeThreshold cfg.edgeStrength e0
      let sm := applyTemporalSmoothing P cfg hist e1
      (P.quantizeWith frame sm.1, sm.2)
  else
    let sm := applyTemporalSmoothing P cfg hist (P.cannyNorm frame)
    (P.quantizeWith frame sm.1, sm.2)

/-- The `for` loop of the classic `process_batch` (lines 297-303). -/
def processFramesC (P : ClassicPrims F E) (cfg : ClassicConfig)
    (hist : List E) : List F → List F × List E
  | [] => ([], hist)
  | f :: fs =>
    let r := processFrameC P cfg hist f
    let rest := processFramesC P cfg r.2 fs
    (r.1 :: rest.1, rest.2)

/-- The classic `process_batch` (lines 279-303): the guarded reset
`if len(frames) > 0 and (len(self.previous_edges) > self.max_previous_frames
or len(self.previous_edges) == 0): self.previous_edges = []` followed by the
per-frame loop. -/
def processBatchC (P : ClassicPrims F E) (cfg : ClassicConfig)
    (hist : List E) (frames : List F) : List F × List E :=
  let h0 :=
    if !frames.isEmpty &&
        (decide (maxPreviousFrames < hist.length) || decide (hist.length = 0)) then
      ([] : List E)
    else hist
  processFramesC P cfg h0 frames

theorem processFramesN_append (P : NeuralPrims F E M R) (cfg : NeuralConfig)
    (b1 b2 : List F) :
    ∀ acc, processFramesN P cfg acc (b1 ++ b2) =
      ((processFramesN P cfg (processFramesN P cfg acc b1).1 b2).1,
       (processFramesN P cfg acc b1).2 ++
         (processFramesN P cfg (processFramesN P cfg acc b1).1 b2).2) := by
  induction b1 with
  | nil => intro acc; simp [processFramesN]
  | cons f fs ih => intro acc; simp [processFramesN, ih]

theorem processBatchN_append (P : NeuralPrims F E M R) (cfg : NeuralConfig)
    (s : NeuralState F E) (rng : R) (b1 b2 : List F) :
    processBatchN P cfg s rng (b1 ++ b2) =
      ((processBatchN P cfg s rng b1).1 ++
        (processBatchN P cfg (processBatchN P cfg s rng b1).2.1
          (processBatchN P cfg s rng b1).2.2 b2).1,
       (processBatchN P cfg (processBatchN P cfg s rng b1).2.1
          (processBatchN P cfg s rng b1).2.2 b2).2) := by
  by_cases h : cfg.netOk <;>
    simp [processBatchN, h, processFramesN_append]

theorem pushHistory_length_le (hist : List E) (e : E)
    (h : hist.length ≤ maxPreviousFrames) :
    (pushHistory hist e).length ≤ maxPreviousFrames := by
  show (if maxPreviousFrames < (hist ++ [e]).length then (hist ++ [e]).tail
      else hist ++ [e]).length ≤ maxPreviousFrames
  split
  · simp only [List.length_tail, List.length_append, List.length_singleton]
    omega
  · rename_i h5
    rw [not_lt] at h5
    simpa using h5

theorem applyTemporalSmoothing_snd (P : ClassicPrims F E) (cfg : ClassicConfig)
    (hist : List E) (e : E) :
    (applyTemporalSmoothing P cfg hist e).2 = pushHistory hist e := by
  unfold applyTemporalSmoothing
  split <;> rfl

theorem processFrameC_hist_le (P : ClassicPrims F E) (cfg : ClassicConfig)
    (hist : List E) (f : F) (h : hist.length ≤ maxPreviousFrames) :
    (processFrameC P cfg hist f).2.length ≤ maxPreviousFrames := by
  unfold processFrameC
  by_cases hh : cfg.hedAvailable
  · rw [if_pos hh]
    rcases hf : P.hedForward f with u | e0
    · exact h
    · show (applyTemporalSmoothing P cfg hist _).2.length ≤ maxPreviousFrames
      rw [applyTemporalSmoothing_snd]
      exact pushHistory_length_le _ _ h
  · rw [if_neg hh]
    show (applyTemporalSmoothing P cfg hist _).2.length ≤ maxPreviousFrames
    rw [applyTemporalSmoothing_snd]
    exact pushHistory_length_le _ _ h

theorem processFramesC_hist_le (P : ClassicPrims F E) (cfg : ClassicConfig)
    (frames : List F) :
    ∀ hist, hist.length ≤ maxPreviousFrames →
      (processFramesC P cfg hist frames).2.length ≤ maxPreviousFrames := by
  induction frames with
  | nil => intro hist h; exact h
  | cons f fs ih =>
    intro hist h
    exact ih _ (processFrameC_hist_le P cfg hist f h)

theorem processFramesC_append (P : ClassicPrims F E) (cfg : ClassicConfig)
    (b1 b2 : List F) :
    ∀ hist, processFramesC P cfg hist (b1 ++ b2) =
      ((processFramesC P cfg hist b1).1 ++
        (processFramesC P cfg (processFramesC P cfg hist b1).2 b2).1,
       (processFramesC P cfg (processFramesC P cfg hist b1).2 b2).2) := by
  induction b1 with
  | nil => intro hist; simp [processFramesC]
  | cons f fs ih => intro hist; simp [processFramesC, ih]

theorem processBatchC_eq_processFramesC (P : ClassicPrims F E)
    (cfg : ClassicConfig) (hist : List E) (frames : List F)
    (h : hist.length ≤ maxPreviousFrames) :
    processBatchC P cfg hist frames = processFramesC P cfg hist frames := by
  unfold processBatchC
  cases hist with
  | nil => split <;> rfl
  | cons e t =>
    have h1 : decide (maxPreviousFrames < (e :: t).length) = false := by
      simp only [decide_eq_false_iff_not, not_lt]
      exact h
    have h2 : decide ((e :: t).length = 0) = false := by
      simp
    rw [h1, h2]
    simp

/-- **C1.** Within one job, the effect engine's cross-frame state persists
across batch boundaries: for both the neural and the classic Scanner Darkly
implementation, processing `b1 ++ b2` in one `process_batch` call produces
exactly the outputs of processing `b1` and then `b2` in two consecutive
calls (with the state and RNG threaded through), so every frame's output
depends only on the frame history and the effect parameters, never on how
the frames were partitioned into batches.  For the classic variant the
standing invariant `len(previous_edges) ≤ max_previous_frames` (which holds
from construction on) makes the guarded reset in `process_batch` a no-op. -/
theorem state_persists_across_batches :
    (∀ (F E M R : Type) (P : NeuralPrims F E M R) (cfg : NeuralConfig)
        (s : NeuralState F E) (rng : R) (b1 b2 : List F),
      processBatchN P cfg s rng (b1 ++ b2) =
        ((processBatchN P cfg s rng b1).1 ++
          (processBatchN P cfg (processBatchN P cfg s rng b1).2.1
            (processBatchN P cfg s rng b1).2.2 b2).1,
         (processBatchN P cfg (processBatchN P cfg s rng b1).2.1
            (processBatchN P cfg s rng b1).2.2 b2).2)) ∧
    (∀ (F E : Type) (P : ClassicPrims F E) (cfg : ClassicConfig)
        (hist : List E) (b1 b2 : List F),
      hist.length ≤ maxPreviousFrames →
      processBatchC P cfg hist (b1 ++ b2) =
        ((processBatchC P cfg hist b1).1 ++
          (processBatchC P cfg (processBatchC P cfg hist b1).2 b2).1,
         (processBatchC P cfg (processBatchC P cfg hist b1).2 b2).2)) := by
  constructor
  · intro F E M R P cfg s rng b1 b2
    exact processBatchN_append P cfg s rng b1 b2
  · intro F E P cfg hist b1 b2 h
    have h1 := processBatchC_eq_processFramesC P cfg hist (b1 ++ b2) h
    have h2 := processBatchC_eq_processFramesC P cfg hist b1 h
    have h3 := processBatchC_eq_processFramesC P cfg
      (processFramesC P cfg hist b1).2 b2
      (processFramesC_hist_le P cfg b1 hist h)
    rw [h2, h3, h1, processFramesC_append P cfg b1 b2 hist]

/-- A concrete executable instantiation of the classic-effect primitives
(used to exercise the batch-boundary theorem on concrete data). -/
def classicDemoPrims : ClassicPrims ℕ ℕ where
  hedForward := fun f => .ok f
  threshScale := fun _ _ e => e + 1
  cannyNorm := fun f => f
  tempCombine := fun _ e h => e + h.length
  quantizeWith := fun f e => f * 100 + e
  quantizeNoEdges := fun f => f

/-- A concrete classic configuration with integral rationals only. -/
def classicDemoCfg : ClassicConfig where
  edgeStrength := 1
  edgeThreshold := 0
  temporalSmoothing := 1
  hedAvailable := true

/-- **C1 witness.** The batch-boundary equation instantiated at a concrete
primitive pack, empty initial history, and batches `[1, 2]` and `[3]`, with
the hypothesis `hist.length ≤ maxPreviousFrames` discharged concretely; the
common value is also evaluated. -/
theorem state_persists_across_batches_witness :
    processBatchC classicDemoPrims classicDemoCfg [] ([1, 2] ++ [3]) =
      ((processBatchC classicDemoPrims classicDemoCfg [] [1, 2]).1 ++
        (processBatchC classicDemoPrims classicDemoCfg
          (processBatchC classicDemoPrims classicDemoCfg [] [1, 2]).2 [3]).1,
       (processBatchC classicDemoPrims classicDemoCfg
          (processBatchC classicDemoPrims classicDemoCfg [] [1, 2]).2 [3]).2) ∧
    processBatchC classicDemoPrims classicDemoCfg [] [1, 2, 3] =
      ([102, 204, 306], [2, 3, 4]) := by
  refine ⟨state_persists_across_batches.2 ℕ ℕ classicDemoPrims classicDemoCfg
    [] [1, 2] [3] (by decide), by decide⟩

/-! ## Determinism of the pipeline (claim C4)

`_quantize_kmeans` calls `cv2.kmeans(..., flags=cv2.KMEANS_RANDOM_CENTERS)`
with seed argument `None` (neural/scanner_darkly.py:339-346, and identically
`ColorQuantizer.quantize_kmeans`, models/color_quantization.py:109-116), so
the cluster initialization reads the process-global OpenCV RNG, which is not
reset between runs inside one worker process. -/

theorem frameStep_rng_irrel (P : NeuralPrims F E M R) (cfg : NeuralConfig)
    (hm : cfg.colorMethod ≠ .kmeans) (s : NeuralState F E) (f : F) (r1 r2 : R) :
    (frameStep P cfg (s, r1) f).1.1 = (frameStep P cfg (s, r2) f).1.1 ∧
    (frameStep P cfg (s, r1) f).1.2 = r1 ∧
    (frameStep P cfg (s, r1) f).2 = (frameStep P cfg (s, r2) f).2 := by
  cases hc : cfg.colorMethod
  · exact absurd hc hm
  · unfold frameStep quantizeColors
    rw [hc]
    exact ⟨rfl, rfl, rfl⟩
  · unfold frameStep quantizeColors
    rw [hc]
    exact ⟨rfl, rfl, rfl⟩

theorem processFramesN_rng_split (P : NeuralPrims F E M R) (cfg : NeuralConfig)
    (hm : cfg.colorMethod ≠ .kmeans) :
    ∀ (frames : List F) (s : NeuralState F E) (r1 r2 : R),
      (processFramesN P cfg (s, r1) frames).1.1 =
        (processFramesN P cfg (s, r2) frames).1.1 ∧
      (processFramesN P cfg (s, r1) frames).2 =
        (processFramesN P cfg (s, r2) frames).2 := by
  intro frames
  induction frames with
  | nil => exact fun s r1 r2 => ⟨rfl, rfl⟩
  | cons f fs ih =>
    intro s r1 r2
    obtain ⟨hs, hr1, ho⟩ := frameStep_rng_irrel P cfg hm s f r1 r2
    obtain ⟨_, hr2, _⟩ := frameStep_rng_irrel P cfg hm s f r2 r1
    have e1 : (frameStep P cfg (s, r1) f).1 =
        ((frameStep P cfg (s, r1) f).1.1, r1) := Prod.ext_iff.mpr ⟨rfl, hr1⟩
    have e2 : (frameStep P cfg (s, r2) f).1 =
        ((frameStep P cfg (s, r1) f).1.1, r2) := Prod.ext_iff.mpr ⟨hs.symm, hr2⟩
    simp only [processFramesN]
    rw [e1, e2, ho]
    obtain ⟨ha, hb⟩ := ih ((frameStep P cfg (s, r1) f).1.1) r1 r2
    exact ⟨ha, by rw [hb]⟩

theorem processBatchN_outputs_rng_irrel (P : NeuralPrims F E M R)
    (cfg : NeuralConfig) (hm : cfg.colorMethod ≠ .kmeans)
    (s : NeuralState F E) (r1 r2 : R) (frames : List F) :
    (processBatchN P cfg s r1 frames).1 = (processBatchN P cfg s r2 frames).1 := by
  by_cases h : cfg.netOk
  · simp only [processBatchN, if_pos h]
    exact (processFramesN_rng_split P cfg hm frames s r1 r2).2
  · simp only [processBatchN, if_neg h]

/-- A concrete executable instantiation of the neural-effect primitives in
which the k-means assignment visibly depends on (and advances) the RNG
state, as `KMEANS_RANDOM_CENTERS` does. -/
def rngDemoPrims : NeuralPrims ℕ ℕ ℕ ℕ where
  bilateral5 := fun f => f
  netForward := fun f => .ok f
  zeros := 0
  blendEdges := fun _ a _ => a
  normalizeMinMax := fun e => e
  powCurve := fun _ e => e
  toU8 := fun e => e
  adaptiveThresh := fun m => m
  dilate := fun _ m => m
  gaussBlur3 := fun m => m
  thin := fun m => m
  bilateralSmooth := fun _ f => f
  cvtLab := fun f => f
  kmeansAssign := fun f _ r => (f + r, r + 1)
  satAdjustLab := fun _ f => f
  contrastL := fun f => f
  cvtBgr := fun f => f
  addWeighted := fun _ f _ _ => f
  bilateralStrong := fun f => f
  hsvAdjust := fun _ f => f
  cbrtInt := fun n => n
  posterizeLUT := fun _ f => f
  posterizeSat := fun _ f => f
  overlayBlack := fun f _ => f
  darkenBorder := fun f _ => f

/-- A concrete neural configuration (k-means method) with integral rationals
only. -/
def rngDemoCfg : NeuralConfig where
  edgeStrength := 1
  edgeThickness := 1
  numColors := 4
  colorMethod := .kmeans
  smoothing := 0
  saturation := 1
  temporalSmoothing := 0
  preserveBlack := false
  netOk := true

/-- **C4 counterexample.** Running the pipeline twice on the same one-frame
input inside one process: the second run starts from the RNG state the first
left behind, and the unseeded k-means initialization makes the two outputs
differ, so the claimed bit-identical determinism fails. -/
theorem pipeline_determinism_counterexample :
    (runPipelineTwice rngDemoPrims rngDemoCfg [0] 0).1 = [0] ∧
    (runPipelineTwice rngDemoPrims rngDemoCfg [0] 0).2 = [1] ∧
    (runPipelineTwice rngDemoPrims rngDemoCfg [0] 0).1 ≠
      (runPipelineTwice rngDemoPrims rngDemoCfg [0] 0).2 := by
  exact ⟨by decide, by decide, by decide⟩

/-- **C4 (amended).** The effect is deterministic given a fixed pseudo-random
state: the only RNG consumer is the unseeded `KMEANS_RANDOM_CENTERS` k-means
initialization, so with `color_method` set to `bilateral` or `posterize` the
pipeline's outputs are independent of the RNG state entirely and two
consecutive runs on the same input produce identical output; with `kmeans`
identical output is guaranteed only when both runs start from the same RNG
state. -/
theorem pipeline_deterministic_modulo_rng :
    ∀ (F E M R : Type) (P : NeuralPrims F E M R) (cfg : NeuralConfig)
      (s : NeuralState F E) (r1 r2 : R) (frames : List F),
      cfg.colorMethod ≠ .kmeans →
      (processBatchN P cfg s r1 frames).1 = (processBatchN P cfg s r2 frames).1 ∧
      (runPipelineTwice P cfg frames r1).1 = (runPipelineTwice P cfg frames r1).2 := by
  intro F E M R P cfg s r1 r2 frames hm
  refine ⟨processBatchN_outputs_rng_irrel P cfg hm s r1 r2 frames, ?_⟩
  unfold runPipelineTwice
  exact processBatchN_outputs_rng_irrel P cfg hm {} r1
    ((processBatchN P cfg {} r1 frames).2.2) frames

/-- A posterize variant of the demo configuration. -/
def posterizeDemoCfg : NeuralConfig :=
  { rngDemoCfg with colorMethod := .posterize }

/-- **C4 witness.** With the posterize color method the two runs coincide on
a concrete input, by the amended theorem with its hypothesis discharged. -/
theorem pipeline_deterministic_witness :
    (runPipelineTwice rngDemoPrims posterizeDemoCfg [0] 0).1 =
      (runPipelineTwice rngDemoPrims posterizeDemoCfg [0] 0).2 :=
  (pipeline_deterministic_modulo_rng ℕ ℕ ℕ ℕ rngDemoPrims posterizeDemoCfg
    {} 0 1 [0] (by decide)).2

/-! ## Per-frame failure handling (claim C5)

In the neural effect an exception in the inference call is caught *inside*
`_detect_edges` (lines 233-235): a zero edge map is returned, `prev_edges`
is not updated, and the frame still flows through quantization and
compositing.  The original frame is returned (with no state change) exactly
when `_load_neural_network` fails (lines 549-552 and 585-588). -/

theorem quantizeColors_prevEdges (P : NeuralPrims F E M R) (cfg : NeuralConfig)
    (s : NeuralState F E) (f : F) (rng : R) :
    (quantizeColors P cfg s f rng).2.1.prevEdges = s.prevEdges := by
  unfold quantizeColors quantizeKmeans quantizeBilateral quantizePosterize
  cases hc : cfg.colorMethod <;> rfl

theorem quantizeColors_prevColors (P : NeuralPrims F E M R) (cfg : NeuralConfig)
    (s : NeuralState F E) (f : F) (rng : R) :
    ∃ q, (quantizeColors P cfg s f rng).2.1.prevColors = some q := by
  unfold quantizeColors quantizeKmeans quantizeBilateral quantizePosterize
  cases hc : cfg.colorMethod <;> exact ⟨_, rfl⟩

theorem processFramesN_length (P : NeuralPrims F E M R) (cfg : NeuralConfig)
    (frames : List F) :
    ∀ acc, (processFramesN P cfg acc frames).2.length = frames.length := by
  induction frames with
  | nil => intro acc; rfl
  | cons f fs ih =>
    intro acc
    simp only [processFramesN, List.length_cons, ih]

/-- **C5 (amended).** Failure handling of the neural engine: (i) if the
network fails to load, `process_batch` returns the original, unmodified
frames and leaves the cross-frame state and RNG untouched, and the job
continues; (ii) if the inference call throws on a frame, the error is caught
inside edge detection — the frame is still quantized and composited with a
zero edge map (so the output is generally *not* the original frame),
`prev_edges` is left unchanged while `prev_colors` is still updated; (iii) a
batch always yields exactly one output frame per input frame, so the job
never aborts on a per-frame engine failure. -/
theorem engine_failure_fallback :
    (∀ (F E M R : Type) (P : NeuralPrims F E M R) (cfg : NeuralConfig)
        (s : NeuralState F E) (rng : R) (frames : List F),
      cfg.netOk = false → processBatchN P cfg s rng frames = (frames, s, rng)) ∧
    (∀ (F E M R : Type) (P : NeuralPrims F E M R) (cfg : NeuralConfig)
        (s : NeuralState F E) (rng : R) (frame : F),
      cfg.netOk = true → P.netForward (P.bilateral5 frame) = .error () →
      (processFrameN P cfg s rng frame).2.1.prevEdges = s.prevEdges ∧
      ∃ q, (processFrameN P cfg s rng frame).2.1.prevColors = some q) ∧
    (∀ (F E M R : Type) (P : NeuralPrims F E M R) (cfg : NeuralConfig)
        (s : NeuralState F E) (rng : R) (frames : List F),
      cfg.netOk = true → (processBatchN P cfg s rng frames).1.length = frames.length) := by
  refine ⟨?_, ?_, ?_⟩
  · intro F E M R P cfg s rng frames h
    simp only [processBatchN, h, Bool.false_eq_true, if_false]
  · intro F E M R P cfg s rng frame h herr
    simp only [processFrameN, h, if_true, frameStep, detectEdges, herr]
    exact ⟨quantizeColors_prevEdges P cfg s frame rng,
      quantizeColors_prevColors P cfg s frame rng⟩
  · intro F E M R P cfg s rng frames h
    simp only [processBatchN, h, if_true]
    exact processFramesN_length P cfg frames (s, rng)

/-- Neural primitives whose inference call always throws, and whose k-means
assignment visibly recolors the frame. -/
def inferFailPrims : NeuralPrims ℕ ℕ ℕ ℕ :=
  { rngDemoPrims with
    netForward := fun _ => .error ()
    kmeansAssign := fun f _ r => (f + 1, r) }

/-- **C5 counterexample.** With the inference call throwing on frame `0`, the
per-frame operation returns the quantized-and-composited frame `1`, not the
original unmodified frame `0` the claim requires. -/
theorem engine_failure_counterexample :
    inferFailPrims.netForward (inferFailPrims.bilateral5 0) = .error () ∧
    (processFrameN inferFailPrims rngDemoCfg {} 0 0).1 = 1 ∧
    (processFrameN inferFailPrims rngDemoCfg {} 0 0).1 ≠ 0 := by
  exact ⟨rfl, by decide, by decide⟩

/-- **C5 witness.** The amended theorem instantiated on the concrete
throwing primitives: the state facts and the one-output-per-frame fact. -/
theorem engine_failure_fallback_witness :
    ((processFrameN inferFailPrims rngDemoCfg {} 0 0).2.1.prevEdges =
      (({} : NeuralState ℕ ℕ)).prevEdges ∧
      ∃ q, (processFrameN inferFailPrims rngDemoCfg {} 0 0).2.1.prevColors = some q) ∧
    (processBatchN inferFailPrims rngDemoCfg {} 0 [5, 6]).1.length = 2 := by
  refine ⟨engine_failure_fallback.2.1 ℕ ℕ ℕ ℕ inferFailPrims rngDemoCfg
    {} 0 0 (by decide) rfl, ?_⟩
  have h := engine_failure_fallback.2.2 ℕ ℕ ℕ ℕ inferFailPrims rngDemoCfg
    {} 0 [5, 6] (by decide)
  simpa using h

/-! ## Disk-spill frame naming and ordering (claim C7)

`extract_to_disk` (frame_extractor.py:122-185) computes
`frame_digits = len(str(total_frames)) + 1` and writes frame `k` as
`frame_{k:0{frame_digits}d}.png` with a counter starting at 0.  The loader
(`load_frames_from_disk`, lines 249-290) sorts by the parsed integer
`int(f.split("_")[1].split(".")[0])`; the pipeline's disk path
(pipeline.py:300-303) sorts the same listing lexicographically.  Processed
frames are rewritten as `frame_{processed_count+j:08d}.png`
(pipeline.py:322-327).  File names are modelled as lists of character
codes. -/

/-- Most-significant-first, fixed-width `d`-digit base-10 expansion; models
Python's `f"{n:0{d}d}"` for `n < 10^d`. -/
def padDigits : ℕ → ℕ → List ℕ
  | 0, _ => []
  | d + 1, n => (n / 10 ^ d) :: padDigits d (n % 10 ^ d)

/-- Value of a most-significant-first digit list (what Python's `int()`
parses, leading zeros included). -/
def digitsVal : List ℕ → ℕ
  | [] => 0
  | a :: l => a * 10 ^ l.length + digitsVal l

/-- ASCII code of a decimal digit. -/
def digitChar (v : ℕ) : ℕ := 48 + v

/-- `"frame_"` as character codes. -/
def framePrefix : List ℕ := [102, 114, 97, 109, 101, 95]

/-- `".png"` as character codes. -/
def pngSuffix : List ℕ := [46, 112, 110, 103]

/-- The on-disk name `frame_{n:0{d}d}.png`. -/
def frameFileName (d n : ℕ) : List ℕ :=
  framePrefix ++ (padDigits d n).map digitChar ++ pngSuffix

/-- Python `len(str(n))` for a natural number. -/
def pyLenStr (n : ℕ) : ℕ := if n = 0 then 1 else Nat.log 10 n + 1

/-- The extraction loop of `extract_to_disk`: write each frame under the
next counter value, counter starting at `c`. -/
def extractLoop (d : ℕ) : ℕ → List G → List (List ℕ × G)
  | _, [] => []
  | c, f :: fs => (frameFileName d c, f) :: extractLoop d (c + 1) fs

/-- `extract_to_disk` with metadata frame count `total`: pad width
`len(str(total)) + 1`, counter from 0. -/
def extractToDisk (total : ℕ) (frames : List G) : List (List ℕ × G) :=
  extractLoop (pyLenStr total + 1) 0 frames

/-- The loader's numeric sort key `int(f.split("_")[1].split(".")[0])` on a
`frame_<digits>.png` name: the `d` digits after the 6-character prefix. -/
def loaderKey (d : ℕ) (name : List ℕ) : ℕ :=
  digitsVal (((name.drop 6).take d).map (fun c => c - 48))

/-- The processed-frame renumbering loop of `_process_video_disk`
(pipeline.py:317-331): each flushed batch writes indices
`processed_count + j`, then advances `processed_count`. -/
def processedLoop : ℕ → List (List G) → List ℕ
  | _, [] => []
  | c, b :: bs => (List.range b.length).map (c + ·) ++ processedLoop (c + b.length) bs

theorem padDigits_length (d : ℕ) : ∀ n, (padDigits d n).length = d := by
  induction d with
  | zero => intro n; rfl
  | succ d ih => intro n; simp [padDigits, ih]

theorem digitsVal_padDigits (d : ℕ) : ∀ n, n < 10 ^ d →
    digitsVal (padDigits d n) = n := by
  induction d with
  | zero =>
    intro n hn
    interval_cases n
    rfl
  | succ d ih =>
    intro n hn
    show digitsVal ((n / 10 ^ d) :: padDigits d (n % 10 ^ d)) = n
    rw [digitsVal, padDigits_length, ih (n % 10 ^ d) (Nat.mod_lt n (by positivity)),
      Nat.mul_comm, Nat.div_add_mod]

theorem padDigits_lex (d : ℕ) : ∀ i j, i < j → j < 10 ^ d →
    List.Lex (· < ·) (padDigits d i) (padDigits d j) := by
  induction d with
  | zero =>
    intro i j hij hj
    omega
  | succ d ih =>
    intro i j hij hj
    show List.Lex (· < ·) ((i / 10 ^ d) :: padDigits d (i % 10 ^ d))
      ((j / 10 ^ d) :: padDigits d (j % 10 ^ d))
    have hle : i / 10 ^ d ≤ j / 10 ^ d := Nat.div_le_div_right (le_of_lt hij)
    rcases lt_or_eq_of_le hle with hq | hq
    · exact List.Lex.rel hq
    · have hsum : i % 10 ^ d + 10 ^ d * (i / 10 ^ d) <
          j % 10 ^ d + 10 ^ d * (j / 10 ^ d) := by
        rw [Nat.mod_add_div, Nat.mod_add_div]
        exact hij
      rw [hq] at hsum ⊢
      have hmod : i % 10 ^ d < j % 10 ^ d := lt_of_add_lt_add_right hsum
      exact List.Lex.cons (ih _ _ hmod (Nat.mod_lt j (by positivity)))

theorem lex_append_same_length {r : ℕ → ℕ → Prop} {l1 l2 : List ℕ}
    (h : List.Lex r l1 l2) (hl : l1.length = l2.length) :
    ∀ s1 s2, List.Lex r (l1 ++ s1) (l2 ++ s2) := by
  induction h with
  | nil => simp at hl
  | cons _ ih =>
    intro s1 s2
    exact List.Lex.cons (ih (by simpa using hl) s1 s2)
  | rel hab =>
    intro s1 s2
    exact List.Lex.rel hab

theorem lex_append_left {r : ℕ → ℕ → Prop} (p : List ℕ) {l1 l2 : List ℕ}
    (h : List.Lex r l1 l2) : List.Lex r (p ++ l1) (p ++ l2) := by
  induction p with
  | nil => exact h
  | cons a t ih => exact List.Lex.cons ih

theorem lex_map_digitChar {l1 l2 : List ℕ} (h : List.Lex (· < ·) l1 l2) :
    List.Lex (· < ·) (l1.map digitChar) (l2.map digitChar) := by
  induction h with
  | nil => exact List.Lex.nil
  | cons _ ih => exact List.Lex.cons ih
  | rel hab => exact List.Lex.rel (by unfold digitChar; omega)

theorem frameFileName_lex (d i j : ℕ) (hij : i < j) (hj : j < 10 ^ d) :
    List.Lex (· < ·) (frameFileName d i) (frameFileName d j) := by
  unfold frameFileName
  rw [List.append_assoc, List.append_assoc]
  apply lex_append_left
  refine lex_append_same_length (lex_map_digitChar (padDigits_lex d i j hij hj)) ?_ _ _
  simp [padDigits_length]

theorem loaderKey_frameFileName (d n : ℕ) (hn : n < 10 ^ d) :
    loaderKey d (frameFileName d n) = n := by
  unfold loaderKey frameFileName framePrefix
  rw [show ([102, 114, 97, 109, 101, 95] ++ (padDigits d n).map digitChar ++ pngSuffix : List ℕ).drop 6
      = (padDigits d n).map digitChar ++ pngSuffix by simp]
  rw [List.take_append_of_le_length (by simp [padDigits_length]),
    List.take_of_length_le (by simp [padDigits_length]), List.map_map]
  have : ((fun c => c - 48) ∘ digitChar) = id := by
    funext v
    simp [digitChar]
  rw [this, List.map_id]
  exact digitsVal_padDigits d n hn

theorem extractLoop_names {G : Type} (d : ℕ) (frames : List G) :
    ∀ c, (extractLoop d c frames).map Prod.fst =
      (List.range frames.length).map (fun i => frameFileName d (c + i)) := by
  induction frames with
  | nil => intro c; rfl
  | cons f fs ih =>
    intro c
    show frameFileName d c :: (extractLoop d (c + 1) fs).map Prod.fst = _
    rw [ih (c + 1), List.length_cons, List.range_succ_eq_map, List.map_cons,
      List.map_map, Nat.add_zero]
    congr 1
    apply List.map_congr_left
    intro i _
    show frameFileName d (c + 1 + i) = frameFileName d (c + (i + 1))
    rw [Nat.add_assoc, Nat.add_comm 1 i]

theorem lt_pow_pyLenStr (n : ℕ) : n < 10 ^ pyLenStr n := by
  unfold pyLenStr
  by_cases h : n = 0
  · subst h
    norm_num
  · rw [if_neg h]
    exact Nat.lt_pow_succ_log_self (by norm_num) n

theorem processedLoop_eq {G : Type} (batches : List (List G)) :
    ∀ c, processedLoop c batches =
      (List.range (batches.map List.length).sum).map (c + ·) := by
  induction batches with
  | nil => intro c; rfl
  | cons b bs ih =>
    intro c
    show (List.range b.length).map (c + ·) ++ processedLoop (c + b.length) bs = _
    rw [ih (c + b.length), List.map_cons, List.sum_cons, List.range_add,
      List.map_append, List.map_map]
    congr 1
    apply List.map_congr_left
    intro i _
    show c + b.length + i = c + (b.length + i)
    rw [Nat.add_assoc]

/-- **C7.** In disk-spill mode: (a) the extracted frame names are strictly
increasing in lexicographic order, so sorting the directory listing
lexicographically reproduces exactly the extraction order; (b) the loader's
numeric keys of the extracted names are exactly `0, 1, …, n-1` in extraction
order — strictly monotonic and gap-free — so the numeric-key sort of
`load_frames_from_disk` consumes the same order; (c) the processed-frame
renumbering of `_process_video_disk` assigns the indices
`0, 1, …, m-1` gap-free across batch flushes, so sequence numbers stay
monotonic and gap-free through reassembly.  Hypothesis: the number of frames
actually decoded does not exceed the metadata frame count used to size the
zero padding. -/
theorem disk_frame_ordering {G G' : Type} (total : ℕ) (frames : List G)
    (batches : List (List G')) (h : frames.length ≤ total) :
    ((extractToDisk total frames).map Prod.fst).Pairwise (List.Lex (· < ·)) ∧
    (extractToDisk total frames).map
        (fun p => loaderKey (pyLenStr total + 1) p.1) =
      List.range frames.length ∧
    processedLoop 0 batches = List.range (batches.map List.length).sum := by
  have hbound : ∀ i, i < frames.length → i < 10 ^ (pyLenStr total + 1) := by
    intro i hi
    calc i < frames.length := hi
      _ ≤ total := h
      _ < 10 ^ pyLenStr total := lt_pow_pyLenStr total
      _ ≤ 10 ^ (pyLenStr total + 1) := Nat.pow_le_pow_right (by norm_num) (by omega)
  refine ⟨?_, ?_, ?_⟩
  · unfold extractToDisk
    rw [extractLoop_names]
    simp only [Nat.zero_add]
    rw [List.pairwise_map]
    refine List.Pairwise.imp_of_mem ?_ (List.pairwise_lt_range _)
    intro a b ha hb hab
    exact frameFileName_lex _ a b hab (hbound b (List.mem_range.mp hb))
  · unfold extractToDisk
    have : (extractLoop (pyLenStr total + 1) 0 frames).map
        (fun p => loaderKey (pyLenStr total + 1) p.1) =
        ((extractLoop (pyLenStr total + 1) 0 frames).map Prod.fst).map
          (loaderKey (pyLenStr total + 1)) := by
      rw [List.map_map]
      rfl
    rw [this, extractLoop_names, List.map_map]
    have hz : ∀ i ∈ List.range frames.length,
        (loaderKey (pyLenStr total + 1) ∘ fun i => frameFileName (pyLenStr total + 1) (0 + i)) i = id i := by
      intro i hi
      show loaderKey _ (frameFileName _ (0 + i)) = i
      rw [Nat.zero_add]
      exact loaderKey_frameFileName _ i (hbound i (List.mem_range.mp hi))
    rw [List.map_congr_left hz, List.map_id]
  · rw [processedLoop_eq batches 0]
    simp

/-- **C7 witness.** The ordering theorem instantiated at metadata count 12,
three concrete frames, and two concrete batches. -/
theorem disk_frame_ordering_witness :
    ((extractToDisk 12 [10, 20, 30]).map Prod.fst).Pairwise (List.Lex (· < ·)) ∧
    (extractToDisk 12 [10, 20, 30]).map
        (fun p => loaderKey (pyLenStr 12 + 1) p.1) =
      List.range 3 ∧
    processedLoop 0 [[1], [2, 3]] =
      List.range ([[1], [2, 3]].map List.length).sum :=
  disk_frame_ordering 12 [10, 20, 30] [[1], [2, 3]] (by decide)

/-! ## Temporary artifacts of the disk path (claim C6)

`_process_video_disk` (pipeline.py:254-359) creates `frames_dir` and
`processed_dir` and removes them (`_cleanup_dir`) only on the success path
(lines 352-353); the `except` clause (lines 357-359) returns `False` without
any cleanup — there is no `finally`.  Moreover pipeline.py never imports
`cv2`, yet line 308 evaluates `cv2.imread(frame_path)`: with at least one
extracted frame the loop raises `NameError` on its first iteration, so the
disk path always takes the exception exit. -/

/-- The two temporary directories created by `_process_video_disk`. -/
inductive TempDir where
  | framesDir : TempDir
  | processedDir : TempDir
deriving DecidableEq, Repr

/-- External outcomes of one `_process_video_disk` run: whether
`extract_to_disk` succeeds, how many `frame_*.png` files it produced, and
whether `assemble_from_disk` succeeds. -/
structure DiskRunEnv where
  extractOk : Bool
  frameCount : ℕ
  assembleOk : Bool
deriving DecidableEq, Repr

/-- `_process_video_disk`: returns the boolean result and the temp
directories still existing when it returns.  Both directories are created
first; an exception in `extract_to_disk` reaches the `except` with no
cleanup; with `frameCount > 0`, the first loop iteration evaluates the
unbound name `cv2` (NameError) and likewise reaches the `except` with no
cleanup; only the `frameCount = 0` path reaches the cleanup calls. -/
def processVideoDiskModel (env : DiskRunEnv) : Bool × List TempDir :=
  if ¬ env.extractOk then (false, [.framesDir, .processedDir])
  else if 0 < env.frameCount then (false, [.framesDir, .processedDir])
  else (env.assembleOk, [])

/-- **C6 (code bug).** On the exception exit paths of `_process_video_disk`
— which include *every* run with at least one extracted frame, because
pipeline.py evaluates the unimported name `cv2` — the temporary
`frames_dir` and `processed_dir` are left behind: the function returns
failure with a non-empty leftover set, contradicting the claim that every
exit path removes all temporary artifacts. -/
theorem disk_cleanup_leaks_on_failure (env : DiskRunEnv)
    (h : env.extractOk = false ∨ 0 < env.frameCount) :
    (processVideoDiskModel env).1 = false ∧
    (processVideoDiskModel env).2 = [.framesDir, .processedDir] := by
  unfold processVideoDiskModel
  rcases h with h | h
  · rw [if_pos (by simp [h])]
    exact ⟨rfl, rfl⟩
  · by_cases he : env.extractOk
    · rw [if_neg (by simp [he]), if_pos h]
      exact ⟨rfl, rfl⟩
    · rw [if_pos (by simp [he])]
      exact ⟨rfl, rfl⟩

/-- **C6 witness.** A run whose extraction succeeds with one frame: the
result is failure and both temp directories remain on disk. -/
theorem disk_cleanup_leaks_witness :
    (processVideoDiskModel ⟨true, 1, true⟩).1 = false ∧
    (processVideoDiskModel ⟨true, 1, true⟩).2 = [.framesDir, .processedDir] :=
  disk_cleanup_leaks_on_failure ⟨true, 1, true⟩ (Or.inr (by decide))

/-! ## Mid-stream decode failures (claim C9)

`process_video` catches the `ValueError` raised by `get_video_info` when the
container cannot be opened and returns `False` (pipeline.py:147-184,
frame_extractor.py:51-53).  The disk path's own frame loop
(pipeline.py:305-341) never reaches its readability check: pipeline.py has
no `import cv2`, so evaluating `cv2.imread(frame_path)` on the first
iteration raises `NameError` and the `except` returns `False` — no progress
callback fires and no frame is processed, whatever the files contain (this
is the same fact the C6 model records).  The skip-and-continue handling of
an unreadable frame exists in `FrameExtractor.load_frames_from_disk`
(frame_extractor.py:249-290, a module that does import cv2): an unreadable
file is logged and `continue`d and every later readable frame is still
yielded in order; nothing anywhere decrements a progress total. -/

/-- The `process_video` top level: a container that cannot be opened raises
in `get_video_info` and the `except` returns `False` (hard failure);
otherwise the selected processing path's result is returned. -/
def processVideoOutcome (containerOk : Bool) (runResult : Bool) : Bool :=
  if containerOk then runResult else false

/-- The frame loop of `_process_video_disk` as it actually executes
(pipeline.py:305-341): `files` lists the would-be readability of each
`frame_*.png`.  With no files the loop body never runs and control falls
through to assembly; with at least one file the first iteration raises
`NameError` at the unbound name `cv2` — before any readability check — so
the run aborts with `processed_count = 0` and no progress pairs.  Returns
(loop completed without exception, `processed_count`, progress pairs). -/
def pipelineDiskLoop (batchSize total : ℕ) (files : List Bool) :
    Bool × ℕ × List (ℕ × ℕ) :=
  match batchSize, total, files with
  | _, _, [] => (true, 0, [])
  | _, _, _ :: _ => (false, 0, [])

/-- `FrameExtractor.load_frames_from_disk` (frame_extractor.py:249-290):
each entry is `some frame` if `cv2.imread` succeeds and `none` if it
returns `None`; an unreadable file is logged and `continue`d, a readable
frame is yielded. -/
def loadFramesFromDisk {G : Type} : List (Option G) → List G
  | [] => []
  | none :: rest => loadFramesFromDisk rest
  | some f :: rest => f :: loadFramesFromDisk rest

/-- **C9 counterexample.** Two frame files, the first unreadable, metadata
total 2.  The claim predicts: the bad frame is logged and skipped, the
progress total is decremented to 1, and the job continues producing the
remaining frame — i.e. a completed run with one output and progress
`(1, 1)`.  The code's disk loop instead raises `NameError` on its first
iteration (pipeline.py never imports `cv2`) and aborts with no output and
no progress callback at all. -/
theorem decode_skip_counterexample :
    pipelineDiskLoop 30 2 [false, true] = (false, 0, []) ∧
    pipelineDiskLoop 30 2 [false, true] ≠ (true, 1, [(1, 2 - 1)]) := by
  exact ⟨by decide, by decide⟩

theorem loadFramesFromDisk_skip_append {G : Type} (files1 files2 : List (Option G)) :
    loadFramesFromDisk (files1 ++ none :: files2) =
      loadFramesFromDisk files1 ++ loadFramesFromDisk files2 := by
  induction files1 with
  | nil => rfl
  | cons o rest ih =>
    cases o with
    | none =>
      show loadFramesFromDisk (rest ++ none :: files2) = _
      rw [ih]
      rfl
    | some f =>
      show f :: loadFramesFromDisk (rest ++ none :: files2) = _
      rw [ih]
      rfl

theorem loadFramesFromDisk_eq_filterMap {G : Type} (files : List (Option G)) :
    loadFramesFromDisk files = files.filterMap id := by
  induction files with
  | nil => rfl
  | cons o rest ih =>
    cases o with
    | none =>
      show loadFramesFromDisk rest = _
      rw [ih, List.filterMap_cons]
      rfl
    | some f =>
      show f :: loadFramesFromDisk rest = _
      rw [ih, List.filterMap_cons]
      rfl

/-- **C9 (amended).** A container that cannot be opened is a hard failure:
the job aborts.  The pipeline's own disk loop aborts whenever any frame
file exists — `cv2` is unbound in pipeline.py, so `NameError` is raised
before any readability check — producing no output and no progress
callback, and consequently no progress total is ever decremented there.
The claimed skip-and-continue behavior exists only in
`FrameExtractor.load_frames_from_disk`: an unreadable frame mid-stream is
skipped and every frame before and after it is still produced in order
(the output is exactly the readable frames), with no total decremented. -/
theorem decode_failure_handling :
    (∀ runResult : Bool, processVideoOutcome false runResult = false) ∧
    (∀ (batchSize total : ℕ) (files : List Bool), files ≠ [] →
      pipelineDiskLoop batchSize total files = (false, 0, [])) ∧
    (∀ (G : Type) (files1 files2 : List (Option G)),
      loadFramesFromDisk (files1 ++ none :: files2) =
        loadFramesFromDisk files1 ++ loadFramesFromDisk files2) ∧
    (∀ (G : Type) (files : List (Option G)),
      loadFramesFromDisk files = files.filterMap id) := by
  refine ⟨fun r => rfl, ?_, ?_, ?_⟩
  · intro batchSize total files hne
    cases files with
    | nil => exact absurd rfl hne
    | cons f rest => rfl
  · intro G files1 files2
    exact loadFramesFromDisk_skip_append files1 files2
  · intro G files
    exact loadFramesFromDisk_eq_filterMap files

/-- **C9 witness.** The amended theorem at concrete inputs: one frame file
aborts the pipeline disk loop, and the loader on
`[some 1, none, some 2]` skips the unreadable middle file while yielding
both readable frames in order. -/
theorem decode_failure_handling_witness :
    pipelineDiskLoop 30 5 [true] = (false, 0, []) ∧
    loadFramesFromDisk [some 1, none, some 2] =
      loadFramesFromDisk [some 1] ++ loadFramesFromDisk [some (2 : ℕ)] ∧
    loadFramesFromDisk [some 1, none, some 2] =
      ([some 1, none, some 2] : List (Option ℕ)).filterMap id := by
  refine ⟨decode_failure_handling.2.1 30 5 [true] (by decide),
    decode_failure_handling.2.2.1 ℕ [some 1] [some 2],
    decode_failure_handling.2.2.2 ℕ [some 1, none, some 2]⟩
